import Mathlib

/-!
Verification of the AI Hunger Games round/voting/elimination/replacement
engine and its event-sourced replay.

Each definition below is a shallow embedding of the corresponding Python
function or class from `src/ai_hunger_games/`.  Python `dict`s with string
or integer keys are modelled as association lists with first-occurrence
insertion order (matching CPython's insertion-ordered dictionaries);
Python `float` historical averages are modelled as `Rat` (the engine only
adds, divides and compares small integral counts, all exact); Python
exceptions are modelled as `Except`/`Option` results.
-/

namespace AIHG

/-! ## voting/types.py -/

/-- `Vote` from `voting/types.py`: a single vote cast by an agent. -/
structure Vote where
  voter_id : String
  voted_for_id : String
  round_number : Nat
deriving DecidableEq, Repr

/-- `VoteResult` from `voting/types.py`: aggregated count for one agent. -/
structure VoteResult where
  agent_id : String
  votes_received : Nat
deriving DecidableEq, Repr

/-- `VotingRoundResult` from `voting/types.py`. -/
structure VotingRoundResult where
  round_number : Nat
  votes : List Vote
  results : List VoteResult
deriving DecidableEq, Repr

/-- `VotingRoundResult.get_votes_for`: first matching result's count, else 0. -/
def VotingRoundResult.get_votes_for (r : VotingRoundResult) (agent_id : String) : Nat :=
  match r.results.find? (fun res => res.agent_id = agent_id) with
  | some res => res.votes_received
  | none => 0

/-! ## voting/aggregation.py -/

/-- Key sequence of the Python dict `{agent_id: 0 for agent_id in all_agent_ids}`:
first occurrence of each id, in input order. -/
def dictKeys : List String → List String
  | [] => []
  | k :: ks => k :: (dictKeys ks).filter (fun x => x ≠ k)

/-- The initial `vote_counts` dict: every id mapped to 0. -/
def initCounts (all_agent_ids : List String) : List (String × Nat) :=
  (dictKeys all_agent_ids).map (fun k => (k, 0))

/-- One loop iteration of `aggregate_votes`:
`if vote.voted_for_id in vote_counts: vote_counts[vote.voted_for_id] += 1`. -/
def incrementVote (counts : List (String × Nat)) (target : String) : List (String × Nat) :=
  if target ∈ counts.map Prod.fst then
    counts.map (fun p => if p.1 = target then (p.1, p.2 + 1) else p)
  else counts

/-- The `for vote in votes` loop of `aggregate_votes`. -/
def tallyVotes : List Vote → List (String × Nat) → List (String × Nat)
  | [], counts => counts
  | v :: vs, counts => tallyVotes vs (incrementVote counts v.voted_for_id)

/-- Key ordering used by Python's `sorted(vote_counts.items())` (dict keys are
unique, so sorting the pairs lexicographically is sorting by key). -/
def keyLE (p q : String × Nat) : Prop := p.1 ≤ q.1

instance : DecidableRel keyLE := fun p q => inferInstanceAs (Decidable (p.1 ≤ q.1))

/-- `sorted(vote_counts.items())`. -/
def sortResults (counts : List (String × Nat)) : List (String × Nat) :=
  counts.insertionSort keyLE

/-- `aggregate_votes` from `voting/aggregation.py`. -/
def aggregate_votes (votes : List Vote) (round_number : Nat)
    (all_agent_ids : List String) : VotingRoundResult :=
  let vote_counts := tallyVotes votes (initCounts all_agent_ids)
  let results := (sortResults vote_counts).map (fun p => VoteResult.mk p.1 p.2)
  { round_number := round_number, votes := votes, results := results }

/-! ### Association-list lemmas for the vote-counts dict -/

theorem mem_dictKeys {x : String} : ∀ {l : List String}, x ∈ dictKeys l ↔ x ∈ l := by
  intro l
  induction l with
  | nil => simp [dictKeys]
  | cons k ks ih =>
    by_cases h : x = k
    · simp [dictKeys, h]
    · simp [dictKeys, List.mem_filter, h, ih]

theorem nodup_dictKeys : ∀ (l : List String), (dictKeys l).Nodup := by
  intro l
  induction l with
  | nil => simp [dictKeys]
  | cons k ks ih =>
    refine List.nodup_cons.mpr ⟨?_, ih.filter _⟩
    intro hmem
    have := (List.mem_filter.mp hmem).2
    simp at this

/-- Sum of the counts stored in the dict. -/
def sumVals (counts : List (String × Nat)) : Nat :=
  (counts.map Prod.snd).sum

theorem keys_initCounts (ids : List String) :
    (initCounts ids).map Prod.fst = dictKeys ids := by
  simp [initCounts, List.map_map, Function.comp_def]

theorem sumVals_initCounts (ids : List String) : sumVals (initCounts ids) = 0 := by
  simp [initCounts, sumVals, List.map_map, Function.comp_def]

theorem keys_incrementVote (counts : List (String × Nat)) (t : String) :
    (incrementVote counts t).map Prod.fst = counts.map Prod.fst := by
  unfold incrementVote
  split
  · rw [List.map_map]
    apply List.map_congr_left
    intro p _
    by_cases h : p.1 = t <;> simp [h]
  · rfl

theorem sumVals_mapIncr (counts : List (String × Nat)) (t : String) :
    sumVals (counts.map (fun p => if p.1 = t then (p.1, p.2 + 1) else p))
      = sumVals counts + (counts.map Prod.fst).count t := by
  induction counts with
  | nil => simp [sumVals]
  | cons p ps ih =>
    by_cases h : p.1 = t
    · simp [sumVals, List.count_cons, h] at *
      omega
    · simp [sumVals, List.count_cons, h] at *
      omega

theorem sumVals_incrementVote (counts : List (String × Nat)) (t : String) :
    sumVals (incrementVote counts t) = sumVals counts + (counts.map Prod.fst).count t := by
  unfold incrementVote
  split
  · exact sumVals_mapIncr counts t
  · rename_i h
    simp [List.count_eq_zero.mpr h]

theorem keys_tallyVotes (votes : List Vote) :
    ∀ (counts : List (String × Nat)),
      (tallyVotes votes counts).map Prod.fst = counts.map Prod.fst := by
  induction votes with
  | nil => intro counts; rfl
  | cons v vs ih =>
    intro counts
    rw [tallyVotes, ih, keys_incrementVote]

theorem sumVals_tallyVotes (votes : List Vote) :
    ∀ (counts : List (String × Nat)),
      sumVals (tallyVotes votes counts)
        = sumVals counts
          + (votes.map (fun v => (counts.map Prod.fst).count v.voted_for_id)).sum := by
  induction votes with
  | nil => intro counts; simp [tallyVotes]
  | cons v vs ih =>
    intro counts
    rw [tallyVotes, ih, sumVals_incrementVote, keys_incrementVote]
    simp
    omega

theorem sortResults_perm (counts : List (String × Nat)) :
    (sortResults counts).Perm counts :=
  List.perm_insertionSort keyLE counts

/-- C1.  Vote-count conservation: if every vote's target is a member of the
participant identity list, then in the aggregate produced by
`aggregate_votes` the counts sum to the number of votes, every participant
identity appears exactly once (zero-vote participants included), and no
other identity appears. -/
theorem aggregate_votes_conservation (votes : List Vote) (round_number : Nat)
    (all_agent_ids : List String)
    (hv : ∀ v ∈ votes, v.voted_for_id ∈ all_agent_ids) :
    (((aggregate_votes votes round_number all_agent_ids).results.map
        VoteResult.votes_received).sum = votes.length)
    ∧ (∀ a ∈ all_agent_ids,
        ((aggregate_votes votes round_number all_agent_ids).results.map
          VoteResult.agent_id).count a = 1)
    ∧ (∀ res ∈ (aggregate_votes votes round_number all_agent_ids).results,
        res.agent_id ∈ all_agent_ids) := by
  have hkeys : (tallyVotes votes (initCounts all_agent_ids)).map Prod.fst
      = dictKeys all_agent_ids := by
    rw [keys_tallyVotes, keys_initCounts]
  have hperm : (sortResults (tallyVotes votes (initCounts all_agent_ids))).Perm
      (tallyVotes votes (initCounts all_agent_ids)) :=
    sortResults_perm _
  have hres_counts :
      (aggregate_votes votes round_number all_agent_ids).results.map
        VoteResult.votes_received
      = (sortResults (tallyVotes votes (initCounts all_agent_ids))).map Prod.snd := by
    simp [aggregate_votes, List.map_map, Function.comp_def]
  have hres_ids :
      (aggregate_votes votes round_number all_agent_ids).results.map
        VoteResult.agent_id
      = (sortResults (tallyVotes votes (initCounts all_agent_ids))).map Prod.fst := by
    simp [aggregate_votes, List.map_map, Function.comp_def]
  refine ⟨?_, ?_, ?_⟩
  · rw [hres_counts]
    have hsum : ((sortResults (tallyVotes votes (initCounts all_agent_ids))).map
        Prod.snd).sum = sumVals (tallyVotes votes (initCounts all_agent_ids)) :=
      (hperm.map Prod.snd).sum_eq
    rw [hsum, sumVals_tallyVotes, sumVals_initCounts, keys_initCounts]
    have hone : ∀ v ∈ votes, (dictKeys all_agent_ids).count v.voted_for_id = 1 := by
      intro v hvmem
      exact List.count_eq_one_of_mem (nodup_dictKeys all_agent_ids)
        (mem_dictKeys.mpr (hv v hvmem))
    rw [List.map_congr_left (fun v hvmem => hone v hvmem)]
    simp
  · intro a ha
    rw [hres_ids]
    have hcount : ((sortResults (tallyVotes votes (initCounts all_agent_ids))).map
        Prod.fst).count a
        = ((tallyVotes votes (initCounts all_agent_ids)).map Prod.fst).count a :=
      (hperm.map Prod.fst).count_eq a
    rw [hcount, hkeys]
    exact List.count_eq_one_of_mem (nodup_dictKeys all_agent_ids) (mem_dictKeys.mpr ha)
  · intro res hres
    have : res.agent_id ∈ (aggregate_votes votes round_number all_agent_ids).results.map
        VoteResult.agent_id := List.mem_map_of_mem _ hres
    rw [hres_ids] at this
    have : res.agent_id ∈ (tallyVotes votes (initCounts all_agent_ids)).map Prod.fst :=
      (hperm.map Prod.fst).mem_iff.mp this
    rw [hkeys] at this
    exact mem_dictKeys.mp this

/-- C1 witness: two votes for "A" among participants ["A", "B", "C"]
conserve the vote count and list each participant exactly once. -/
theorem aggregate_votes_conservation_witness :
    (((aggregate_votes [Vote.mk "B" "A" 1, Vote.mk "C" "A" 1] 1
        ["A", "B", "C"]).results.map VoteResult.votes_received).sum = 2)
    ∧ (((aggregate_votes [Vote.mk "B" "A" 1, Vote.mk "C" "A" 1] 1
        ["A", "B", "C"]).results.map VoteResult.agent_id).count "A" = 1) :=
  ⟨(aggregate_votes_conservation [Vote.mk "B" "A" 1, Vote.mk "C" "A" 1] 1
      ["A", "B", "C"] (by decide)).1,
   (aggregate_votes_conservation [Vote.mk "B" "A" 1, Vote.mk "C" "A" 1] 1
      ["A", "B", "C"] (by decide)).2.1 "A" (by decide)⟩

/-! ## arena/elimination.py -/

/-- `EliminationCandidate` from `arena/elimination.py`; the Python `float`
historical average is modelled as `Rat`. -/
structure EliminationCandidate where
  agent_id : String
  cumulative_votes : Int
  historical_average : Rat
deriving DecidableEq, Repr

/-- `EliminationResult` from `arena/elimination.py`. -/
structure EliminationResult where
  eliminated_agent_id : String
  cumulative_votes : Int
  was_tie : Bool
deriving DecidableEq, Repr

/-- `max(c.cumulative_votes for c in candidates)` on the non-empty list
`c0 :: rest`. -/
def maxVotesOf (c0 : EliminationCandidate) (rest : List EliminationCandidate) : Int :=
  rest.foldl (fun m c => max m c.cumulative_votes) c0.cumulative_votes

/-- `tied = [c for c in candidates if c.cumulative_votes == max_votes]`. -/
def tiedList (c0 : EliminationCandidate) (rest : List EliminationCandidate) :
    List EliminationCandidate :=
  (c0 :: rest).filter (fun c => c.cumulative_votes = maxVotesOf c0 rest)

/-- `min(c.historical_average for c in tied_candidates)` on `d0 :: ds`. -/
def minAvgOf (d0 : EliminationCandidate) (ds : List EliminationCandidate) : Rat :=
  ds.foldl (fun m c => min m c.historical_average) d0.historical_average

/-- `avg_tied = [c for c in tied_candidates if c.historical_average == min_avg]`. -/
def avgTied (d0 : EliminationCandidate) (ds : List EliminationCandidate) :
    List EliminationCandidate :=
  (d0 :: ds).filter (fun c => c.historical_average = minAvgOf d0 ds)

/-- The sort key `hash(c.agent_id) ^ seed` of `_break_tie`.  Python's builtin
`hash` on strings is salted per process, so it is modelled as an explicit
parameter `pyhash` rather than a fixed function. -/
def tieKey (pyhash : String → Int) (seed : Int) (c : EliminationCandidate) : Int :=
  Int.xor (pyhash c.agent_id) seed

/-- Comparison used by `sorted(avg_tied, key=...)`. -/
def tieKeyLE (pyhash : String → Int) (seed : Int) (a b : EliminationCandidate) : Prop :=
  tieKey pyhash seed a ≤ tieKey pyhash seed b

instance (pyhash : String → Int) (seed : Int) : DecidableRel (tieKeyLE pyhash seed) :=
  fun a b => inferInstanceAs (Decidable (tieKey pyhash seed a ≤ tieKey pyhash seed b))

/-- `_break_tie` from `arena/elimination.py`.  `none` models the `ValueError`
Python's `min`/indexing would raise on an empty list (unreachable from
`determine_elimination`). -/
def break_tie (pyhash : String → Int) (tied_candidates : List EliminationCandidate)
    (seed : Int) : Option EliminationCandidate :=
  match tied_candidates with
  | [] => none
  | d0 :: ds =>
    let avg_tied := avgTied d0 ds
    if avg_tied.length = 1 then avg_tied.head?
    else (avg_tied.insertionSort (tieKeyLE pyhash seed)).head?

/-- `determine_elimination` from `arena/elimination.py`.  `none` models the
`ValueError` raised on an empty candidate list. -/
def determine_elimination (pyhash : String → Int)
    (candidates : List EliminationCandidate) (seed : Int) : Option EliminationResult :=
  match candidates with
  | [] => none
  | c0 :: rest =>
    let tied := tiedList c0 rest
    let eliminated? := if tied.length = 1 then tied.head? else break_tie pyhash tied seed
    eliminated?.map (fun e =>
      { eliminated_agent_id := e.agent_id, cumulative_votes := e.cumulative_votes,
        was_tie := decide (1 < tied.length) })

/-! ### Fold lemmas for Python's `max(...)` / `min(...)` over candidates -/

theorem foldl_max_init_le {α : Type} [LinearOrder α] (f : EliminationCandidate → α) :
    ∀ (l : List EliminationCandidate) (a : α),
      a ≤ l.foldl (fun m c => max m (f c)) a := by
  intro l
  induction l with
  | nil => intro a; exact le_refl a
  | cons c cs ih => intro a; exact le_trans (le_max_left a (f c)) (ih _)

theorem foldl_max_mem_le {α : Type} [LinearOrder α] (f : EliminationCandidate → α) :
    ∀ (l : List EliminationCandidate) (a : α), ∀ c ∈ l,
      f c ≤ l.foldl (fun m c => max m (f c)) a := by
  intro l
  induction l with
  | nil => intro a c hc; simp at hc
  | cons d ds ih =>
    intro a c hc
    rcases List.mem_cons.mp hc with h | h
    · subst h
      exact le_trans (le_max_right a (f c)) (foldl_max_init_le f ds _)
    · exact ih _ c h

theorem foldl_max_attained {α : Type} [LinearOrder α] (f : EliminationCandidate → α) :
    ∀ (l : List EliminationCandidate) (a : α),
      l.foldl (fun m c => max m (f c)) a = a
        ∨ ∃ c ∈ l, l.foldl (fun m c => max m (f c)) a = f c := by
  intro l
  induction l with
  | nil => intro a; exact Or.inl rfl
  | cons d ds ih =>
    intro a
    rcases ih (max a (f d)) with h | ⟨c, hc, heq⟩
    · rcases max_cases a (f d) with ⟨hm, _⟩ | ⟨hm, _⟩
      · exact Or.inl (h.trans hm)
      · exact Or.inr ⟨d, by simp, h.trans hm⟩
    · exact Or.inr ⟨c, by simp [hc], heq⟩

theorem foldl_min_le_init {α : Type} [LinearOrder α] (f : EliminationCandidate → α) :
    ∀ (l : List EliminationCandidate) (a : α),
      l.foldl (fun m c => min m (f c)) a ≤ a := by
  intro l
  induction l with
  | nil => intro a; exact le_refl a
  | cons c cs ih => intro a; exact le_trans (ih _) (min_le_left a (f c))

theorem foldl_min_le_mem {α : Type} [LinearOrder α] (f : EliminationCandidate → α) :
    ∀ (l : List EliminationCandidate) (a : α), ∀ c ∈ l,
      l.foldl (fun m c => min m (f c)) a ≤ f c := by
  intro l
  induction l with
  | nil => intro a c hc; simp at hc
  | cons d ds ih =>
    intro a c hc
    rcases List.mem_cons.mp hc with h | h
    · subst h
      exact le_trans (foldl_min_le_init f ds _) (min_le_right a (f c))
    · exact ih _ c h

theorem foldl_min_attained {α : Type} [LinearOrder α] (f : EliminationCandidate → α) :
    ∀ (l : List EliminationCandidate) (a : α),
      l.foldl (fun m c => min m (f c)) a = a
        ∨ ∃ c ∈ l, l.foldl (fun m c => min m (f c)) a = f c := by
  intro l
  induction l with
  | nil => intro a; exact Or.inl rfl
  | cons d ds ih =>
    intro a
    rcases ih (min a (f d)) with h | ⟨c, hc, heq⟩
    · rcases min_cases a (f d) with ⟨hm, _⟩ | ⟨hm, _⟩
      · exact Or.inl (h.trans hm)
      · exact Or.inr ⟨d, by simp, h.trans hm⟩
    · exact Or.inr ⟨c, by simp [hc], heq⟩

theorem mem_tiedList {c0 : EliminationCandidate} {rest : List EliminationCandidate}
    {c : EliminationCandidate} :
    c ∈ tiedList c0 rest ↔ c ∈ c0 :: rest ∧ c.cumulative_votes = maxVotesOf c0 rest := by
  simp [tiedList]

theorem tiedList_ne_nil (c0 : EliminationCandidate) (rest : List EliminationCandidate) :
    tiedList c0 rest ≠ [] := by
  rcases foldl_max_attained EliminationCandidate.cumulative_votes rest
      c0.cumulative_votes with h | ⟨c, hc, heq⟩
  · exact List.ne_nil_of_mem (mem_tiedList.mpr ⟨List.mem_cons_self c0 rest, h.symm⟩)
  · exact List.ne_nil_of_mem
      (mem_tiedList.mpr ⟨List.mem_cons_of_mem c0 hc, heq.symm⟩)

theorem mem_avgTied {d0 : EliminationCandidate} {ds : List EliminationCandidate}
    {c : EliminationCandidate} :
    c ∈ avgTied d0 ds ↔ c ∈ d0 :: ds ∧ c.historical_average = minAvgOf d0 ds := by
  simp [avgTied]

theorem avgTied_ne_nil (d0 : EliminationCandidate) (ds : List EliminationCandidate) :
    avgTied d0 ds ≠ [] := by
  rcases foldl_min_attained EliminationCandidate.historical_average ds
      d0.historical_average with h | ⟨c, hc, heq⟩
  · exact List.ne_nil_of_mem (mem_avgTied.mpr ⟨List.mem_cons_self d0 ds, h.symm⟩)
  · exact List.ne_nil_of_mem
      (mem_avgTied.mpr ⟨List.mem_cons_of_mem d0 hc, heq.symm⟩)

theorem break_tie_mem (pyhash : String → Int) (seed : Int)
    (d0 : EliminationCandidate) (ds : List EliminationCandidate) :
    ∃ e, break_tie pyhash (d0 :: ds) seed = some e ∧ e ∈ avgTied d0 ds := by
  by_cases hlen : (avgTied d0 ds).length = 1
  · rcases (avgTied d0 ds).exists_cons_of_ne_nil (avgTied_ne_nil d0 ds) with ⟨e, es, he⟩
    have hes : es = [] := by
      rw [he] at hlen
      simpa using hlen
    subst hes
    refine ⟨e, ?_, by simp [he]⟩
    simp [break_tie, hlen, he]
  · have hperm := List.perm_insertionSort (tieKeyLE pyhash seed) (avgTied d0 ds)
    have hne : (avgTied d0 ds).insertionSort (tieKeyLE pyhash seed) ≠ [] := by
      intro hnil
      apply avgTied_ne_nil d0 ds
      rw [hnil] at hperm
      exact hperm.symm.eq_nil
    rcases ((avgTied d0 ds).insertionSort
        (tieKeyLE pyhash seed)).exists_cons_of_ne_nil hne with ⟨e, es, he⟩
    refine ⟨e, ?_, ?_⟩
    · simp [break_tie, hlen, he]
    · exact hperm.mem_iff.mp (by simp [he])

/-- C2.  Elimination tie-break algorithm: on any non-empty candidate list the
result exists, its candidate attains the maximum cumulative score; a unique
maximum is returned with `was_tie = false`; with several max-score candidates
`was_tie = true` and, when the minimum historical average among them is
attained uniquely, the returned candidate is that minimum-average one. -/
theorem determine_elimination_correct (pyhash : String → Int) (seed : Int)
    (c0 : EliminationCandidate) (rest : List EliminationCandidate) :
    ∃ r : EliminationResult,
      determine_elimination pyhash (c0 :: rest) seed = some r
      ∧ (∃ c ∈ c0 :: rest, r.eliminated_agent_id = c.agent_id
           ∧ r.cumulative_votes = c.cumulative_votes
           ∧ ∀ d ∈ c0 :: rest, d.cumulative_votes ≤ c.cumulative_votes)
      ∧ (∀ c, tiedList c0 rest = [c] →
           r.eliminated_agent_id = c.agent_id ∧ r.was_tie = false)
      ∧ (1 < (tiedList c0 rest).length → r.was_tie = true
           ∧ ∀ d0 ds c, tiedList c0 rest = d0 :: ds → avgTied d0 ds = [c] →
               r.eliminated_agent_id = c.agent_id
               ∧ c.historical_average = minAvgOf d0 ds
               ∧ ∀ d ∈ tiedList c0 rest, minAvgOf d0 ds ≤ d.historical_average) := by
  have hmax_le : ∀ d ∈ c0 :: rest, d.cumulative_votes ≤ maxVotesOf c0 rest := by
    intro d hd
    rcases List.mem_cons.mp hd with h | h
    · subst h; exact foldl_max_init_le _ rest _
    · exact foldl_max_mem_le _ rest _ d h
  rcases (tiedList c0 rest).exists_cons_of_ne_nil (tiedList_ne_nil c0 rest)
    with ⟨t0, ts, hts⟩
  by_cases hlen : (tiedList c0 rest).length = 1
  · -- unique maximum: tied = [t0]
    have hts1 : tiedList c0 rest = [t0] := by
      rw [hts] at hlen ⊢
      simp at hlen
      simp [hlen]
    have ht0 := mem_tiedList.mp (by rw [hts1]; exact List.mem_cons_self t0 [])
    refine ⟨{ eliminated_agent_id := t0.agent_id, cumulative_votes := t0.cumulative_votes,
              was_tie := decide (1 < (tiedList c0 rest).length) }, ?_, ?_, ?_, ?_⟩
    · simp [determine_elimination, hlen, hts1]
    · refine ⟨t0, ht0.1, rfl, rfl, ?_⟩
      intro d hd
      rw [ht0.2]
      exact hmax_le d hd
    · intro c hc
      rw [hts1] at hc
      injection hc with hc _
      subst hc
      simp [hlen]
    · intro hgt
      rw [hlen] at hgt
      exact absurd hgt (by omega)
  · -- several max-score candidates: tie broken by `_break_tie`
    have hgt : 1 < (tiedList c0 rest).length := by
      have hpos : 0 < (tiedList c0 rest).length :=
        List.length_pos_of_ne_nil (tiedList_ne_nil c0 rest)
      omega
    rcases break_tie_mem pyhash seed t0 ts with ⟨e, hbt, hemem⟩
    have hemem' : e ∈ tiedList c0 rest := by
      rw [hts]
      exact (mem_avgTied.mp hemem).1
    have he := mem_tiedList.mp hemem'
    refine ⟨{ eliminated_agent_id := e.agent_id, cumulative_votes := e.cumulative_votes,
              was_tie := decide (1 < (tiedList c0 rest).length) }, ?_, ?_, ?_, ?_⟩
    · simp only [determine_elimination]
      rw [if_neg hlen, hts, hbt]
      rfl
    · refine ⟨e, he.1, rfl, rfl, ?_⟩
      intro d hd
      rw [he.2]
      exact hmax_le d hd
    · intro c hc
      rw [hc] at hgt
      simp at hgt
    · intro _
      refine ⟨by simp [hgt], ?_⟩
      intro d0 ds c hds havg
      obtain ⟨h10, h2s⟩ : t0 = d0 ∧ ts = ds :=
        List.cons_eq_cons.mp (hts.symm.trans hds)
      have hemem2 : e ∈ avgTied d0 ds := by
        rw [← h10, ← h2s]
        exact hemem
      have hec : e = c := by
        have h3 := hemem2
        rw [havg] at h3
        simpa using h3
      refine ⟨by rw [← hec], ?_, ?_⟩
      · rw [← hec]
        exact (mem_avgTied.mp hemem2).2
      · intro d hd
        rw [hts, h10, h2s] at hd
        simp only [minAvgOf]
        rcases List.mem_cons.mp hd with h | h
        · subst h
          exact foldl_min_le_init EliminationCandidate.historical_average ds _
        · exact foldl_min_le_mem EliminationCandidate.historical_average ds _ d h

/-- C2 witness: candidates A(10, avg 2), B(10, avg 1), C(5, avg 1) — a score
tie resolved by the lower historical average. -/
theorem determine_elimination_correct_witness :
    ∃ r : EliminationResult,
      determine_elimination (fun _ => 0)
        [EliminationCandidate.mk "A" 10 2, EliminationCandidate.mk "B" 10 1,
         EliminationCandidate.mk "C" 5 1] 42 = some r
      ∧ (∃ c ∈ [EliminationCandidate.mk "A" 10 2, EliminationCandidate.mk "B" 10 1,
            EliminationCandidate.mk "C" 5 1], r.eliminated_agent_id = c.agent_id
           ∧ r.cumulative_votes = c.cumulative_votes
           ∧ ∀ d ∈ [EliminationCandidate.mk "A" 10 2, EliminationCandidate.mk "B" 10 1,
               EliminationCandidate.mk "C" 5 1],
               d.cumulative_votes ≤ c.cumulative_votes)
      ∧ (∀ c, tiedList (EliminationCandidate.mk "A" 10 2)
            [EliminationCandidate.mk "B" 10 1, EliminationCandidate.mk "C" 5 1] = [c] →
           r.eliminated_agent_id = c.agent_id ∧ r.was_tie = false)
      ∧ (1 < (tiedList (EliminationCandidate.mk "A" 10 2)
            [EliminationCandidate.mk "B" 10 1, EliminationCandidate.mk "C" 5 1]).length →
           r.was_tie = true
           ∧ ∀ d0 ds c, tiedList (EliminationCandidate.mk "A" 10 2)
                 [EliminationCandidate.mk "B" 10 1, EliminationCandidate.mk "C" 5 1]
                 = d0 :: ds →
               avgTied d0 ds = [c] →
               r.eliminated_agent_id = c.agent_id
               ∧ c.historical_average = minAvgOf d0 ds
               ∧ ∀ d ∈ tiedList (EliminationCandidate.mk "A" 10 2)
                   [EliminationCandidate.mk "B" 10 1, EliminationCandidate.mk "C" 5 1],
                   minAvgOf d0 ds ≤ d.historical_average) :=
  determine_elimination_correct (fun _ => 0) 42 (EliminationCandidate.mk "A" 10 2)
    [EliminationCandidate.mk "B" 10 1, EliminationCandidate.mk "C" 5 1]

/-- C3.  The final tie-break key is `hash(agent_id) ^ seed` with Python's
process-salted string `hash`: two processes whose salts order the same two
identities differently eliminate different agents from identical inputs and
an identical seed, so the key is not a fixed portable function of the
identity string and the seed. -/
theorem tie_break_key_is_process_dependent :
    determine_elimination (fun s => if s = "A" then 0 else 1)
        [EliminationCandidate.mk "A" 10 2, EliminationCandidate.mk "B" 10 2] 0
      ≠ determine_elimination (fun s => if s = "A" then 1 else 0)
        [EliminationCandidate.mk "A" 10 2, EliminationCandidate.mk "B" 10 2] 0 := by
  decide

/-! ## arena/round_state.py -/

/-- `AgentResponse` from `arena/round_state.py`. -/
structure AgentResponse where
  agent_id : String
  response : String
deriving DecidableEq, Repr

/-- `RoundState` from `arena/round_state.py`. -/
structure RoundState where
  round_number : Nat
  prompt : String
  responses : List AgentResponse
  is_complete : Bool
deriving DecidableEq, Repr

/-- `RoundState.add_response`: unconditionally appends a response. -/
def RoundState.add_response (rs : RoundState) (agent_id response : String) : RoundState :=
  { rs with responses := rs.responses ++ [AgentResponse.mk agent_id response] }

/-! ## voting/strategy.py -/

/-- The two exceptions `SelfVoteError` and `InvalidVoteError` of
`voting/strategy.py`. -/
inductive VoteError where
  | selfVote (voter_id : String)
  | invalidTarget (voted_for_id : String)
deriving DecidableEq, Repr

/-- `agent_ids = {resp.agent_id for resp in round_state.responses}` (the set is
modelled by list membership). -/
def roundAgentIds (rs : RoundState) : List String :=
  rs.responses.map AgentResponse.agent_id

/-- The `for voter_id, voted_for_id in vote_choices.items()` loop of
`collect_votes`; the ballot dict's items are the list entries in order. -/
def collectVotesList (round_number : Nat) (agent_ids : List String) :
    List (String × String) → Except VoteError (List Vote)
  | [] => .ok []
  | (voter_id, voted_for_id) :: rest =>
    if voter_id = voted_for_id then .error (.selfVote voter_id)
    else if voted_for_id ∉ agent_ids then .error (.invalidTarget voted_for_id)
    else
      match collectVotesList round_number agent_ids rest with
      | .error e => .error e
      | .ok votes => .ok (Vote.mk voter_id voted_for_id round_number :: votes)

/-- `collect_votes` from `voting/strategy.py`. -/
def collect_votes (rs : RoundState) (vote_choices : List (String × String)) :
    Except VoteError (List Vote) :=
  collectVotesList rs.round_number (roundAgentIds rs) vote_choices

/-! ## observability events (observability/events.py payloads) -/

/-- The event kinds the arena controller emits (timestamps omitted: the
claims are about event presence and order only). -/
inductive Event where
  | roundStarted (round_number : Nat) (prompt : String)
  | agentResponded (round_number : Nat) (agent_id response : String)
  | voteCast (round_number : Nat) (voter_id voted_for_id : String)
  | voteSummary (round_number : Nat) (vote_counts : List (String × Nat))
  | eliminationDecided (round_number : Nat) (eliminated_agent_id : String)
      (cumulative_votes : Int) (was_tie : Bool)
  | agentReplaced (round_number : Nat) (agent_id : String)
deriving DecidableEq, Repr

/-! ## agents/agent.py, agents/registry.py, evolution/post_mortem.py -/

/-- Opaque stand-in for the externally generated trait bundle
(`agents/personality.py` is out of scope per the spec; the engine only
stores and snapshots it, never inspects it). -/
structure Personality where
  tag : Nat
deriving DecidableEq, Repr

/-- `Agent` from `agents/agent.py`: identity, personality, and the bounded
memory created empty by the constructor. -/
structure Agent where
  agent_id : String
  personality : Personality
  memory_window : Nat
  memory_entries : List (Nat × String × String)
deriving DecidableEq, Repr

/-- `AgentRegistry._agents`: an insertion-ordered dict from id to agent. -/
abbrev Registry := List (String × Agent)

/-- `DuplicateAgentError` and `AgentNotFoundError` from `agents/registry.py`. -/
inductive RegError where
  | duplicateAgent (agent_id : String)
  | agentNotFound (agent_id : String)
deriving DecidableEq, Repr

/-- `AgentRegistry.get` (returning `none` for `AgentNotFoundError`). -/
def registryGet (reg : Registry) (agent_id : String) : Option Agent :=
  (reg.find? (fun p => p.1 = agent_id)).map Prod.snd

/-- `AgentRegistry.register`. -/
def registryRegister (reg : Registry) (a : Agent) : Except RegError Registry :=
  if a.agent_id ∈ reg.map Prod.fst then .error (.duplicateAgent a.agent_id)
  else .ok (reg ++ [(a.agent_id, a)])

/-- `AgentRegistry.remove`.  The dict holds each key once, so under the
registry's unique-key invariant the filter deletes exactly that binding. -/
def registryRemove (reg : Registry) (agent_id : String) : Except RegError Registry :=
  if agent_id ∈ reg.map Prod.fst then .ok (reg.filter (fun p => p.1 ≠ agent_id))
  else .error (.agentNotFound agent_id)

/-- `PostMortemRecord` from `evolution/post_mortem.py`. -/
structure PostMortemRecord where
  agent_id : String
  personality : Personality
  rounds_survived : Nat
  total_votes_received : Int
  elimination_round : Nat
  was_tie : Bool
deriving DecidableEq, Repr

/-! ## arena/controller.py -/

/-- The mutable state of an `ArenaController` (plus the replacement
coordinator's `_post_mortem_records` and the event logger's emitted events,
folded into one record). -/
structure ControllerState where
  registry : Registry
  current_round : Nat
  round_history : List RoundState
  voting_history : List VotingRoundResult
  cumulative_votes : String → Nat
  events : List Event
  post_mortem_records : List PostMortemRecord

/-- `ArenaController._update_cumulative_votes`: reads go through
`dict.get(agent_id, 0)`, so the cumulative dict is modelled as a total
function defaulting to 0. -/
def update_cumulative_votes (cum : String → Nat) (result : VotingRoundResult) :
    String → Nat :=
  result.results.foldl
    (fun c vr => fun a => if a = vr.agent_id then c a + vr.votes_received else c a) cum

/-- `ArenaController.conduct_voting`.  The only raise site is
`collect_votes`, reached before any mutation or event emission, so the error
branch returns the input state unchanged. -/
def conduct_voting (st : ControllerState) (rs : RoundState)
    (vote_choices : List (String × String)) :
    ControllerState × Except VoteError VotingRoundResult :=
  match collect_votes rs vote_choices with
  | .error e => (st, .error e)
  | .ok votes =>
    let cast_events :=
      votes.map (fun v => Event.voteCast v.round_number v.voter_id v.voted_for_id)
    let st1 := { st with events := st.events ++ cast_events }
    let agent_ids := rs.responses.map AgentResponse.agent_id
    let result := aggregate_votes votes rs.round_number agent_ids
    let summary_event :=
      Event.voteSummary rs.round_number
        (result.results.map (fun vr => (vr.agent_id, vr.votes_received)))
    let st2 := { st1 with events := st1.events ++ [summary_event] }
    let st3 := { st2 with
      cumulative_votes := update_cumulative_votes st2.cumulative_votes result,
      voting_history := st2.voting_history ++ [result] }
    (st3, .ok result)

/-- `ArenaController._collect_responses`: iterates the registry in
registration order, appending each response to the session and emitting an
AgentResponded event; `gen` is the external response-generation capability. -/
def collect_responses (rs : RoundState) (events : List Event)
    (agent_ids : List String) (gen : String → String) : RoundState × List Event :=
  agent_ids.foldl
    (fun st a =>
      (st.1.add_response a (gen a),
       st.2 ++ [Event.agentResponded st.1.round_number a (gen a)]))
    (rs, events)

/-! ### C4: atomic ballot rejection -/

theorem collectVotesList_error (rn : Nat) (ids : List String) :
    ∀ (choices : List (String × String)),
      (∃ p ∈ choices, p.1 = p.2 ∨ p.2 ∉ ids) →
      ∃ e, collectVotesList rn ids choices = .error e
        ∧ ((∀ p ∈ choices, p.1 ≠ p.2) → ∃ t, e = .invalidTarget t)
        ∧ ((∀ p ∈ choices, p.2 ∈ ids) → ∃ v, e = .selfVote v) := by
  intro choices
  induction choices with
  | nil => intro h; simp at h
  | cons q rest ih =>
    intro h
    by_cases hself : q.1 = q.2
    · refine ⟨.selfVote q.1, ?_, ?_, ?_⟩
      · rw [show q = (q.1, q.2) from rfl]
        simp [collectVotesList, hself]
      · intro hall
        exact absurd hself (hall q (List.mem_cons_self q rest))
      · intro _
        exact ⟨q.1, rfl⟩
    · by_cases htgt : q.2 ∈ ids
      · have hrest : ∃ p ∈ rest, p.1 = p.2 ∨ p.2 ∉ ids := by
          rcases h with ⟨p, hp, hcase⟩
          rcases List.mem_cons.mp hp with hpq | hpr
          · subst hpq
            rcases hcase with h1 | h2
            · exact absurd h1 hself
            · exact absurd htgt h2
          · exact ⟨p, hpr, hcase⟩
        rcases ih hrest with ⟨e, he, hA, hB⟩
        refine ⟨e, ?_, ?_, ?_⟩
        · rw [show q = (q.1, q.2) from rfl]
          simp [collectVotesList, hself, htgt, he]
        · intro hall
          exact hA (fun p hp => hall p (List.mem_cons_of_mem q hp))
        · intro hall
          exact hB (fun p hp => hall p (List.mem_cons_of_mem q hp))
      · refine ⟨.invalidTarget q.2, ?_, ?_, ?_⟩
        · rw [show q = (q.1, q.2) from rfl]
          simp [collectVotesList, hself, htgt]
        · intro _
          exact ⟨q.2, rfl⟩
        · intro hall
          exact absurd (hall q (List.mem_cons_self q rest)) htgt

/-- C4.  Ballot rejection is atomic: a ballot containing a self-vote entry or
an entry whose target is not a round participant makes `collect_votes` fail
(with the self-vote error when all targets are valid, with the
invalid-target error when no entry is a self-vote), and `conduct_voting`
returns the controller state unchanged — same cumulative-score map, same
voting history, no new events — together with the propagated error. -/
theorem conduct_voting_atomic_rejection (st : ControllerState) (rs : RoundState)
    (choices : List (String × String))
    (h : ∃ p ∈ choices, p.1 = p.2 ∨ p.2 ∉ roundAgentIds rs) :
    ∃ e, collect_votes rs choices = .error e
      ∧ conduct_voting st rs choices = (st, .error e)
      ∧ ((∀ p ∈ choices, p.1 ≠ p.2) → ∃ t, e = .invalidTarget t)
      ∧ ((∀ p ∈ choices, p.2 ∈ roundAgentIds rs) → ∃ v, e = .selfVote v) := by
  rcases collectVotesList_error rs.round_number (roundAgentIds rs) choices h
    with ⟨e, he, hA, hB⟩
  refine ⟨e, he, ?_, hA, hB⟩
  simp [conduct_voting, collect_votes, he]

/-- C4 witness: a ballot with a self-vote by "A" is rejected atomically. -/
theorem conduct_voting_atomic_rejection_witness :
    ∃ e, collect_votes (RoundState.mk 1 "p"
          [AgentResponse.mk "A" "ra", AgentResponse.mk "B" "rb"] true)
          [("A", "A")] = .error e
      ∧ conduct_voting (ControllerState.mk [] 1 [] [] (fun _ => 0) [] [])
          (RoundState.mk 1 "p"
            [AgentResponse.mk "A" "ra", AgentResponse.mk "B" "rb"] true)
          [("A", "A")]
          = (ControllerState.mk [] 1 [] [] (fun _ => 0) [] [], .error e)
      ∧ ((∀ p ∈ [("A", "A")], p.1 ≠ p.2) → ∃ t, e = .invalidTarget t)
      ∧ ((∀ p ∈ [("A", "A")], p.2 ∈ roundAgentIds (RoundState.mk 1 "p"
            [AgentResponse.mk "A" "ra", AgentResponse.mk "B" "rb"] true)) →
          ∃ v, e = .selfVote v) :=
  conduct_voting_atomic_rejection (ControllerState.mk [] 1 [] [] (fun _ => 0) [] [])
    (RoundState.mk 1 "p" [AgentResponse.mk "A" "ra", AgentResponse.mk "B" "rb"] true)
    [("A", "A")] ⟨("A", "A"), by simp⟩

/-! ### C7: no duplicate responses in a session -/

theorem collect_responses_responses (agent_ids : List String) (gen : String → String) :
    ∀ (rs : RoundState) (events : List Event),
      (collect_responses rs events agent_ids gen).1.responses
        = rs.responses ++ agent_ids.map (fun a => AgentResponse.mk a (gen a)) := by
  induction agent_ids with
  | nil => intro rs events; simp [collect_responses]
  | cons a as ih =>
    intro rs events
    simp only [collect_responses, List.foldl_cons] at *
    rw [ih]
    simp [RoundState.add_response]

/-- C7 (amended).  Sessions populated by the controller's response
collection record each identity at most once: the recorded identity sequence
is exactly the registry's identity list, which is duplicate-free.
(`add_response` itself performs no duplicate check — see the
counterexample theorem.) -/
theorem collect_responses_unique_identities (round_number : Nat) (prompt : String)
    (agent_ids : List String) (gen : String → String) (events : List Event)
    (h : agent_ids.Nodup) :
    ((collect_responses (RoundState.mk round_number prompt [] false) events
        agent_ids gen).1.responses.map AgentResponse.agent_id) = agent_ids
    ∧ ((collect_responses (RoundState.mk round_number prompt [] false) events
        agent_ids gen).1.responses.map AgentResponse.agent_id).Nodup := by
  have hresp := collect_responses_responses agent_ids gen
    (RoundState.mk round_number prompt [] false) events
  constructor
  · rw [hresp]
    simp [List.map_map, Function.comp_def]
  · rw [hresp]
    simpa [List.map_map, Function.comp_def] using h

/-- C7 witness: three distinct identities are each recorded exactly once. -/
theorem collect_responses_unique_identities_witness :
    ((collect_responses (RoundState.mk 1 "p" [] false) [] ["A", "B", "C"]
        (fun a => a)).1.responses.map AgentResponse.agent_id) = ["A", "B", "C"]
    ∧ ((collect_responses (RoundState.mk 1 "p" [] false) [] ["A", "B", "C"]
        (fun a => a)).1.responses.map AgentResponse.agent_id).Nodup :=
  collect_responses_unique_identities 1 "p" ["A", "B", "C"] (fun a => a) [] (by decide)

/-- C7 counterexample: `RoundState.add_response` does not reject a second
response for an identity already present — it appends it, so the identity
"A" ends up recorded twice. -/
theorem add_response_does_not_reject_duplicates :
    ((((RoundState.mk 1 "p" [] false).add_response "A" "x").add_response
        "A" "y").responses.map AgentResponse.agent_id).count "A" = 2 := by
  decide

/-! ### C10: voter membership is never validated -/

theorem collectVotesList_ok (rn : Nat) (ids : List String) :
    ∀ (choices : List (String × String)),
      (∀ p ∈ choices, p.1 ≠ p.2 ∧ p.2 ∈ ids) →
      collectVotesList rn ids choices
        = .ok (choices.map (fun p => Vote.mk p.1 p.2 rn)) := by
  intro choices
  induction choices with
  | nil => intro _; rfl
  | cons q rest ih =>
    intro h
    have hq := h q (List.mem_cons_self q rest)
    have hrest := ih (fun p hp => h p (List.mem_cons_of_mem q hp))
    rw [show q = (q.1, q.2) from rfl]
    simp [collectVotesList, hq.1, hq.2, hrest]

/-- C10 (implicit).  `collect_votes` never checks the voter's membership in
the round: any ballot whose entries each have a participant target and
voter ≠ target is accepted in full — one `Vote` per entry, in order — with
no condition on the voters, so an entry whose voter is not a participant
still yields a counted vote. -/
theorem collect_votes_ignores_voter_membership (rs : RoundState)
    (choices : List (String × String))
    (h : ∀ p ∈ choices, p.1 ≠ p.2 ∧ p.2 ∈ roundAgentIds rs) :
    collect_votes rs choices
      = .ok (choices.map (fun p => Vote.mk p.1 p.2 rs.round_number))
    ∧ ∀ p ∈ choices, ∃ votes, collect_votes rs choices = .ok votes
        ∧ Vote.mk p.1 p.2 rs.round_number ∈ votes := by
  have hok : collect_votes rs choices
      = .ok (choices.map (fun p => Vote.mk p.1 p.2 rs.round_number)) :=
    collectVotesList_ok rs.round_number (roundAgentIds rs) choices h
  refine ⟨hok, ?_⟩
  intro p hp
  exact ⟨choices.map (fun p => Vote.mk p.1 p.2 rs.round_number), hok,
    List.mem_map_of_mem _ hp⟩

/-- C10 witness: "X" is not a participant of the round, yet its ballot entry
for participant "A" is accepted and returned as a vote. -/
theorem collect_votes_ignores_voter_membership_witness :
    collect_votes (RoundState.mk 1 "p"
        [AgentResponse.mk "A" "ra", AgentResponse.mk "B" "rb",
         AgentResponse.mk "C" "rc"] true) [("X", "A")]
      = .ok [Vote.mk "X" "A" 1] :=
  (collect_votes_ignores_voter_membership
    (RoundState.mk 1 "p"
      [AgentResponse.mk "A" "ra", AgentResponse.mk "B" "rb",
       AgentResponse.mk "C" "rc"] true) [("X", "A")] (by decide)).1

/-! ## observability/replay.py -/

/-- The per-round accumulator dict built by `ReplayEngine.replay`. -/
structure RoundData where
  prompt : String
  responses : List (String × String)
  votes : List (String × String)
  vote_counts : List (String × Nat)
  eliminated : Option String
deriving DecidableEq, Repr

/-- `ReplayRoundSummary` from `observability/replay.py`. -/
structure ReplayRoundSummary where
  round_number : Nat
  prompt : String
  num_responses : Nat
  num_votes : Nat
  vote_counts : List (String × Nat)
  eliminated_agent_id : Option String
  was_elimination_round : Bool
deriving DecidableEq, Repr

/-- The messages of `ReplayInconsistencyError` (one per raise site). -/
inductive ReplayError where
  | responseBeforeRound (round_number : Nat)
  | voteBeforeRound (round_number : Nat)
  | summaryBeforeRound (round_number : Nat)
  | eliminationBeforeRound (round_number : Nat)
deriving DecidableEq, Repr

/-- `rounds[k] = v` on the Python dict: replaces in place when the key is
present, appends when absent. -/
def dictSet (m : List (Nat × RoundData)) (k : Nat) (v : RoundData) :
    List (Nat × RoundData) :=
  if k ∈ m.map Prod.fst then m.map (fun p => if p.1 = k then (k, v) else p)
  else m ++ [(k, v)]

/-- Membership/lookup on the Python dict (`k in rounds` / `rounds[k]`). -/
def dictGet (m : List (Nat × RoundData)) (k : Nat) : Option RoundData :=
  (m.find? (fun p => p.1 = k)).map Prod.snd

/-- One iteration of the `for event_entry in events` loop of
`ReplayEngine.replay`. -/
def replayStep (rounds : List (Nat × RoundData)) :
    Event → Except ReplayError (List (Nat × RoundData))
  | .roundStarted n prompt =>
    .ok (dictSet rounds n (RoundData.mk prompt [] [] [] none))
  | .agentResponded n aid resp =>
    match dictGet rounds n with
    | none => .error (.responseBeforeRound n)
    | some rd => .ok (dictSet rounds n { rd with responses := rd.responses ++ [(aid, resp)] })
  | .voteCast n voter target =>
    match dictGet rounds n with
    | none => .error (.voteBeforeRound n)
    | some rd => .ok (dictSet rounds n { rd with votes := rd.votes ++ [(voter, target)] })
  | .voteSummary n counts =>
    match dictGet rounds n with
    | none => .error (.summaryBeforeRound n)
    | some rd => .ok (dictSet rounds n { rd with vote_counts := counts })
  | .eliminationDecided n elim _ _ =>
    match dictGet rounds n with
    | none => .error (.eliminationBeforeRound n)
    | some rd => .ok (dictSet rounds n { rd with eliminated := some elim })
  | .agentReplaced _ _ => .ok rounds

/-- The full event loop of `ReplayEngine.replay`; a raised
`ReplayInconsistencyError` aborts the remaining replay. -/
def replayFold (rounds : List (Nat × RoundData)) :
    List Event → Except ReplayError (List (Nat × RoundData))
  | [] => .ok rounds
  | e :: es =>
    match replayStep rounds e with
    | .error err => .error err
    | .ok r2 => replayFold r2 es

/-- Key order for `sorted(rounds.keys())` in `_build_summaries`. -/
def roundKeyLE (p q : Nat × RoundData) : Prop := p.1 ≤ q.1

instance : DecidableRel roundKeyLE := fun p q => inferInstanceAs (Decidable (p.1 ≤ q.1))

/-- `ReplayEngine._build_summaries`. -/
def build_summaries (rounds : List (Nat × RoundData)) : List ReplayRoundSummary :=
  (rounds.insertionSort roundKeyLE).map (fun p =>
    ReplayRoundSummary.mk p.1 p.2.prompt p.2.responses.length p.2.votes.length
      p.2.vote_counts p.2.eliminated p.2.eliminated.isSome)

/-- `ReplayEngine.replay` on an already-parsed event list. -/
def replay (events : List Event) : Except ReplayError (List ReplayRoundSummary) :=
  (replayFold [] events).map build_summaries

/-! ### Dict lemmas for the replay accumulator -/

theorem find?_mapReplace (k : Nat) (v : RoundData) :
    ∀ (m : List (Nat × RoundData)), k ∈ m.map Prod.fst →
      (m.map (fun p => if p.1 = k then (k, v) else p)).find? (fun p => p.1 = k)
        = some (k, v) := by
  intro m
  induction m with
  | nil => intro h; simp at h
  | cons p ps ih =>
    intro hmem
    by_cases hpk : p.1 = k
    · simp [hpk]
    · have hmem' : k ∈ ps.map Prod.fst := by
        rcases List.mem_map.mp hmem with ⟨q, hq, hqk⟩
        rcases List.mem_cons.mp hq with h | h
        · subst h; exact absurd hqk hpk
        · exact List.mem_map.mpr ⟨q, h, hqk⟩
      simpa [hpk] using ih hmem'

theorem dictGet_dictSet_self (m : List (Nat × RoundData)) (k : Nat) (v : RoundData) :
    dictGet (dictSet m k v) k = some v := by
  unfold dictSet
  by_cases hmem : k ∈ m.map Prod.fst
  · rw [if_pos hmem]
    simp [dictGet, find?_mapReplace k v m hmem]
  · rw [if_neg hmem]
    have hnone : m.find? (fun p => decide (p.1 = k)) = none := by
      rw [List.find?_eq_none]
      intro p hp
      simp only [decide_eq_true_eq]
      intro hpk
      exact hmem (List.mem_map.mpr ⟨p, hp, hpk⟩)
    simp [dictGet, List.find?_append, hnone]

theorem dictGet_eq_none_iff (m : List (Nat × RoundData)) (k : Nat) :
    dictGet m k = none ↔ k ∉ m.map Prod.fst := by
  unfold dictGet
  rw [Option.map_eq_none', List.find?_eq_none]
  constructor
  · intro h hk
    rcases List.mem_map.mp hk with ⟨p, hp, hpk⟩
    exact absurd (by simpa using hpk) (by simpa using h p hp)
  · intro hk p hp
    simp only [decide_eq_true_eq]
    intro hpk
    exact hk (List.mem_map.mpr ⟨p, hp, hpk⟩)

theorem mem_of_dictGet_eq_some {m : List (Nat × RoundData)} {k : Nat} {rd : RoundData}
    (h : dictGet m k = some rd) : k ∈ m.map Prod.fst := by
  by_contra hk
  rw [(dictGet_eq_none_iff m k).mpr hk] at h
  exact Option.noConfusion h

theorem keys_dictSet_existing {m : List (Nat × RoundData)} {k : Nat}
    (hmem : k ∈ m.map Prod.fst) (v : RoundData) :
    (dictSet m k v).map Prod.fst = m.map Prod.fst := by
  unfold dictSet
  rw [if_pos hmem, List.map_map]
  apply List.map_congr_left
  intro p _
  by_cases h : p.1 = k <;> simp [h]

theorem mem_keys_dictSet {m : List (Nat × RoundData)} {k x : Nat} {v : RoundData} :
    x ∈ (dictSet m k v).map Prod.fst ↔ x ∈ m.map Prod.fst ∨ x = k := by
  by_cases hmem : k ∈ m.map Prod.fst
  · rw [keys_dictSet_existing hmem v]
    constructor
    · exact Or.inl
    · rintro (h | h)
      · exact h
      · subst h; exact hmem
  · unfold dictSet
    rw [if_neg hmem]
    simp

/-! ### C5: duplicate round starts -/

/-- C5 (amended).  Processing a `RoundStarted` event never fails: when a
summary for that round number already exists, it is overwritten with a fresh
one (last round start wins) instead of raising `ReplayInconsistencyError`. -/
theorem replayStep_roundStarted_overwrites (rounds : List (Nat × RoundData))
    (n : Nat) (prompt : String) :
    replayStep rounds (Event.roundStarted n prompt)
      = .ok (dictSet rounds n (RoundData.mk prompt [] [] [] none))
    ∧ dictGet (dictSet rounds n (RoundData.mk prompt [] [] [] none)) n
      = some (RoundData.mk prompt [] [] [] none) :=
  ⟨rfl, dictGet_dictSet_self rounds n _⟩

/-- C5 counterexample: a log with two `RoundStarted` events for round 1 does
not fail with `ReplayInconsistencyError` — replay succeeds and returns the
summary of the second round start. -/
theorem replay_duplicate_round_start_succeeds :
    replay [Event.roundStarted 1 "a", Event.roundStarted 1 "b"]
      = .ok [ReplayRoundSummary.mk 1 "b" 0 0 [] none false] := by
  rfl

/-! ### C6: out-of-order votes fail loudly -/

theorem replayStep_ok_keys {rounds r2 : List (Nat × RoundData)} {e : Event} {n : Nat}
    (hok : replayStep rounds e = .ok r2)
    (hn : n ∉ rounds.map Prod.fst)
    (hne : ∀ p, e ≠ Event.roundStarted n p) :
    n ∉ r2.map Prod.fst := by
  cases e with
  | roundStarted m prompt =>
    have hmn : m ≠ n := fun h => hne prompt (by rw [h])
    have hr2 : dictSet rounds m (RoundData.mk prompt [] [] [] none) = r2 := by
      simpa [replayStep] using hok
    intro hmem
    rw [← hr2] at hmem
    rcases mem_keys_dictSet.mp hmem with h | h
    · exact hn h
    · exact hmn h.symm
  | agentResponded m aid resp =>
    cases hget : dictGet rounds m with
    | none => rw [replayStep, hget] at hok; exact Except.noConfusion hok
    | some rd =>
      rw [replayStep, hget] at hok
      have hr2 : dictSet rounds m { rd with responses := rd.responses ++ [(aid, resp)] }
          = r2 := by simpa using hok
      rw [← hr2, keys_dictSet_existing (mem_of_dictGet_eq_some hget)]
      exact hn
  | voteCast m voter target =>
    cases hget : dictGet rounds m with
    | none => rw [replayStep, hget] at hok; exact Except.noConfusion hok
    | some rd =>
      rw [replayStep, hget] at hok
      have hr2 : dictSet rounds m { rd with votes := rd.votes ++ [(voter, target)] }
          = r2 := by simpa using hok
      rw [← hr2, keys_dictSet_existing (mem_of_dictGet_eq_some hget)]
      exact hn
  | voteSummary m counts =>
    cases hget : dictGet rounds m with
    | none => rw [replayStep, hget] at hok; exact Except.noConfusion hok
    | some rd =>
      rw [replayStep, hget] at hok
      have hr2 : dictSet rounds m { rd with vote_counts := counts } = r2 := by
        simpa using hok
      rw [← hr2, keys_dictSet_existing (mem_of_dictGet_eq_some hget)]
      exact hn
  | eliminationDecided m elim cv wt =>
    cases hget : dictGet rounds m with
    | none => rw [replayStep, hget] at hok; exact Except.noConfusion hok
    | some rd =>
      rw [replayStep, hget] at hok
      have hr2 : dictSet rounds m { rd with eliminated := some elim } = r2 := by
        simpa using hok
      rw [← hr2, keys_dictSet_existing (mem_of_dictGet_eq_some hget)]
      exact hn
  | agentReplaced m aid =>
    have hr2 : rounds = r2 := by simpa [replayStep] using hok
    rw [← hr2]
    exact hn

theorem replayFold_vote_before_start (n : Nat) (voter target : String)
    (post : List Event) :
    ∀ (pre : List Event) (rounds : List (Nat × RoundData)),
      (∀ p, Event.roundStarted n p ∉ pre) →
      n ∉ rounds.map Prod.fst →
      ∃ err, replayFold rounds (pre ++ Event.voteCast n voter target :: post)
        = .error err := by
  intro pre
  induction pre with
  | nil =>
    intro rounds _ hn
    refine ⟨.voteBeforeRound n, ?_⟩
    have hget : dictGet rounds n = none := (dictGet_eq_none_iff rounds n).mpr hn
    simp [replayFold, replayStep, hget]
  | cons e pre' ih =>
    intro rounds hpre hn
    rw [List.cons_append]
    cases hstep : replayStep rounds e with
    | error err =>
      refine ⟨err, ?_⟩
      simp [replayFold, hstep]
    | ok r2 =>
      have hne : ∀ p, e ≠ Event.roundStarted n p := by
        intro p hp
        exact hpre p (by rw [← hp]; exact List.mem_cons_self e pre')
      have hn2 := replayStep_ok_keys hstep hn hne
      have hpre' : ∀ p, Event.roundStarted n p ∉ pre' :=
        fun p hp => hpre p (List.mem_cons_of_mem e hp)
      rcases ih r2 hpre' hn2 with ⟨err, herr⟩
      refine ⟨err, ?_⟩
      simp [replayFold, hstep, herr]

/-- C6.  Replay fails loudly on out-of-order votes: an event log containing a
`VoteCast` for a round with no preceding `RoundStarted` makes `replay` raise
`ReplayInconsistencyError`, returning no summaries at all (so no partial
summary for that round). -/
theorem replay_vote_before_start (pre post : List Event) (n : Nat)
    (voter target : String)
    (hpre : ∀ p, Event.roundStarted n p ∉ pre) :
    ∃ err, replay (pre ++ Event.voteCast n voter target :: post) = .error err := by
  rcases replayFold_vote_before_start n voter target post pre [] hpre (by simp)
    with ⟨err, herr⟩
  exact ⟨err, by simp [replay, herr, Except.map]⟩

/-- C6 witness: a log consisting of a single `VoteCast` for round 1 fails. -/
theorem replay_vote_before_start_witness :
    ∃ err, replay [Event.voteCast 1 "A" "B"] = .error err :=
  replay_vote_before_start [] [] 1 "A" "B" (fun p => by simp)

/-! ## evolution/replacement.py and the controller's cumulative scores -/

/-- `AgentReplacementCoordinator.replace_agent`: reads the old agent, appends
a post-mortem record, removes the old agent, creates and registers a
replacement with the same id, a freshly generated personality and empty
memory; `generator` is the external `PersonalityGenerator.generate`. -/
def replace_agent (generator : String → Personality) (memory_window : Nat)
    (registry : Registry) (post_mortems : List PostMortemRecord)
    (eliminated_agent_id : String) (rounds_survived : Nat)
    (total_votes_received : Int) (elimination_round : Nat) (was_tie : Bool) :
    Except RegError (Registry × List PostMortemRecord × Agent) :=
  match registryGet registry eliminated_agent_id with
  | none => .error (.agentNotFound eliminated_agent_id)
  | some old_agent =>
    let record := PostMortemRecord.mk old_agent.agent_id old_agent.personality
      rounds_survived total_votes_received elimination_round was_tie
    let post_mortems1 := post_mortems ++ [record]
    match registryRemove registry eliminated_agent_id with
    | .error e => .error e
    | .ok registry1 =>
      let new_agent := Agent.mk eliminated_agent_id (generator eliminated_agent_id)
        memory_window []
      match registryRegister registry1 new_agent with
      | .error e => .error e
      | .ok registry2 => .ok (registry2, post_mortems1, new_agent)

/-- `ArenaController.execute_replacement` (with a configured coordinator):
delegates to `replace_agent` with the current round as `rounds_survived` and
`elimination_round`, then emits one AgentReplaced event.  It never touches
the cumulative-score map or the voting history. -/
def execute_replacement (generator : String → Personality) (memory_window : Nat)
    (st : ControllerState) (result : EliminationResult) :
    Except RegError ControllerState :=
  match replace_agent generator memory_window st.registry st.post_mortem_records
      result.eliminated_agent_id st.current_round result.cumulative_votes
      st.current_round result.was_tie with
  | .error e => .error e
  | .ok (registry2, post_mortems2, _new_agent) =>
    let replaced_event := Event.agentReplaced st.current_round result.eliminated_agent_id
    let st2 := { st with
      registry := registry2,
      post_mortem_records := post_mortems2,
      events := st.events ++ [replaced_event] }
    .ok st2

/-- The controller's `_cumulative_votes` map after the completed voting
rounds `history`, each folded in by `_update_cumulative_votes` (the map
starts empty; reads go through `.get(agent_id, 0)`). -/
def cumulative_from_history (history : List VotingRoundResult) : String → Nat :=
  history.foldl update_cumulative_votes (fun _ => 0)

/-- `ArenaController._calculate_historical_average` (`float` as `Rat`). -/
def calculate_historical_average (history : List VotingRoundResult)
    (agent_id : String) : Rat :=
  if history.isEmpty then 0
  else ((history.map (fun r => r.get_votes_for agent_id)).sum : Nat)
    / (history.length : Rat)

/-! ### C8: cumulative score and historical average -/

theorem foldl_vr_update (a : String) :
    ∀ (results : List VoteResult) (cum : String → Nat),
      (results.map VoteResult.agent_id).Nodup →
      (results.foldl (fun c vr => fun x =>
          if x = vr.agent_id then c x + vr.votes_received else c x) cum) a
        = cum a
          + (match results.find? (fun res => res.agent_id = a) with
             | some res => res.votes_received
             | none => 0) := by
  intro results
  induction results with
  | nil => intro cum _; simp
  | cons vr rest ih =>
    intro cum hnodup
    rw [List.map_cons] at hnodup
    have hnodup' := (List.nodup_cons.mp hnodup).2
    have hhead := (List.nodup_cons.mp hnodup).1
    by_cases ha : a = vr.agent_id
    · have hfind : rest.find? (fun res => res.agent_id = a) = none := by
        rw [List.find?_eq_none]
        intro res hres
        simp only [decide_eq_true_eq]
        intro heq
        apply hhead
        have hmem := List.mem_map_of_mem VoteResult.agent_id hres
        rw [heq, ha] at hmem
        exact hmem
      have hcons : (vr :: rest).find? (fun res => res.agent_id = a) = some vr :=
        List.find?_cons_of_pos _ (by simp [ha])
      rw [List.foldl_cons, ih _ hnodup', hfind, hcons]
      simp [ha]
    · have hcons : (vr :: rest).find? (fun res => res.agent_id = a)
          = rest.find? (fun res => res.agent_id = a) :=
        List.find?_cons_of_neg _ (by simp; exact fun h => ha h.symm)
      rw [List.foldl_cons, ih _ hnodup', hcons]
      simp [ha]

theorem update_cumulative_votes_apply (cum : String → Nat) (r : VotingRoundResult)
    (a : String) (hnodup : (r.results.map VoteResult.agent_id).Nodup) :
    update_cumulative_votes cum r a = cum a + r.get_votes_for a := by
  unfold update_cumulative_votes VotingRoundResult.get_votes_for
  exact foldl_vr_update a r.results cum hnodup

theorem foldl_update_history (a : String) :
    ∀ (history : List VotingRoundResult) (cum : String → Nat),
      (∀ r ∈ history, (r.results.map VoteResult.agent_id).Nodup) →
      (history.foldl update_cumulative_votes cum) a
        = cum a + (history.map (fun r => r.get_votes_for a)).sum := by
  intro history
  induction history with
  | nil => intro cum _; simp
  | cons r rs ih =>
    intro cum h
    rw [List.foldl_cons, ih _ (fun q hq => h q (List.mem_cons_of_mem _ hq)),
        update_cumulative_votes_apply cum r a (h r (List.mem_cons_self r rs))]
    simp only [List.map_cons, List.sum_cons]
    omega

/-- C8.  After each completed voting round, an identity's cumulative score
(the controller's running map) equals the sum of its per-round received-vote
counts over all completed voting rounds, and its historical average equals
that sum divided by the number of completed voting rounds; the map persists
across replacement — `execute_replacement` leaves the cumulative-score map
and voting history untouched, so a replaced identity's tally is not reset. -/
theorem cumulative_score_and_average (history : List VotingRoundResult) (a : String)
    (hnodup : ∀ r ∈ history, (r.results.map VoteResult.agent_id).Nodup)
    (hne : history ≠ []) :
    cumulative_from_history history a
      = (history.map (fun r => r.get_votes_for a)).sum
    ∧ calculate_historical_average history a
      = (cumulative_from_history history a : Rat) / (history.length : Rat)
    ∧ ∀ (generator : String → Personality) (memory_window : Nat)
        (st : ControllerState) (res : EliminationResult) (st2 : ControllerState),
        execute_replacement generator memory_window st res = .ok st2 →
        st2.cumulative_votes = st.cumulative_votes
        ∧ st2.voting_history = st.voting_history := by
  have hcum : cumulative_from_history history a
      = (history.map (fun r => r.get_votes_for a)).sum := by
    have h := foldl_update_history a history (fun _ => 0) hnodup
    simpa [cumulative_from_history] using h
  refine ⟨hcum, ?_, ?_⟩
  · unfold calculate_historical_average
    rw [if_neg (by simpa using hne), hcum]
  · intro generator memory_window st res st2 hrep
    unfold execute_replacement at hrep
    cases hra : replace_agent generator memory_window st.registry
        st.post_mortem_records res.eliminated_agent_id st.current_round
        res.cumulative_votes st.current_round res.was_tie with
    | error e =>
      rw [hra] at hrep
      exact Except.noConfusion hrep
    | ok t =>
      obtain ⟨reg2, pm2, na⟩ := t
      rw [hra] at hrep
      injection hrep with h2
      rw [← h2]
      exact ⟨rfl, rfl⟩

/-- C8 witness: 3 votes in round 1 and 1 vote in round 2 give identity "A"
cumulative score 4 and historical average 2 after two voting rounds. -/
theorem cumulative_score_and_average_witness :
    cumulative_from_history
      [VotingRoundResult.mk 1 [] [VoteResult.mk "A" 3, VoteResult.mk "B" 0],
       VotingRoundResult.mk 2 [] [VoteResult.mk "A" 1, VoteResult.mk "B" 2]] "A" = 4
    ∧ calculate_historical_average
      [VotingRoundResult.mk 1 [] [VoteResult.mk "A" 3, VoteResult.mk "B" 0],
       VotingRoundResult.mk 2 [] [VoteResult.mk "A" 1, VoteResult.mk "B" 2]] "A"
      = 2 := by
  have h := cumulative_score_and_average
    [VotingRoundResult.mk 1 [] [VoteResult.mk "A" 3, VoteResult.mk "B" 0],
     VotingRoundResult.mk 2 [] [VoteResult.mk "A" 1, VoteResult.mk "B" 2]] "A"
    (by decide) (by decide)
  have h1 : cumulative_from_history
      [VotingRoundResult.mk 1 [] [VoteResult.mk "A" 3, VoteResult.mk "B" 0],
       VotingRoundResult.mk 2 [] [VoteResult.mk "A" 1, VoteResult.mk "B" 2]] "A"
      = 4 := by
    rw [h.1]
    decide
  refine ⟨h1, ?_⟩
  rw [h.2.1, h1]
  norm_num

/-! ### C9: replacement preserves roster size -/

theorem length_filter_ne_of_nodup : ∀ (reg : Registry) (aid : String),
    (reg.map Prod.fst).Nodup → aid ∈ reg.map Prod.fst →
    (reg.filter (fun p => p.1 ≠ aid)).length + 1 = reg.length := by
  intro reg
  induction reg with
  | nil => intro aid _ hmem; simp at hmem
  | cons p ps ih =>
    intro aid hnodup hmem
    rw [List.map_cons] at hnodup
    have hnodup' := (List.nodup_cons.mp hnodup).2
    have hhead := (List.nodup_cons.mp hnodup).1
    by_cases hpk : p.1 = aid
    · have hall : ps.filter (fun q => q.1 ≠ aid) = ps := by
        rw [List.filter_eq_self]
        intro q hq
        have hqk : q.1 ≠ aid := by
          intro hq1
          apply hhead
          rw [hpk, ← hq1]
          exact List.mem_map_of_mem Prod.fst hq
        simpa using hqk
      rw [List.filter_cons_of_neg (by simp [hpk]), hall, List.length_cons]
    · have hmem' : aid ∈ ps.map Prod.fst := by
        rcases List.mem_map.mp hmem with ⟨q, hq, hqk⟩
        rcases List.mem_cons.mp hq with h | h
        · subst h; exact absurd hqk hpk
        · exact List.mem_map.mpr ⟨q, h, hqk⟩
      have hih := ih aid hnodup' hmem'
      rw [List.filter_cons_of_pos (by simpa using hpk), List.length_cons,
          List.length_cons]
      omega

theorem registryGet_append_new (reg1 : Registry) (a : Agent)
    (hnot : a.agent_id ∉ reg1.map Prod.fst) :
    registryGet (reg1 ++ [(a.agent_id, a)]) a.agent_id = some a := by
  have hnone : reg1.find? (fun p => decide (p.1 = a.agent_id)) = none := by
    rw [List.find?_eq_none]
    intro p hp
    simp only [decide_eq_true_eq]
    intro hpk
    exact hnot (List.mem_map.mpr ⟨p, hp, hpk⟩)
  simp [registryGet, List.find?_append, hnone]

/-- C9.  `replace_agent` on a roster containing the eliminated identity
succeeds, leaves the roster's identity count unchanged, keeps the same
identity string registered with a freshly generated trait bundle and empty
history, and appends exactly one post-mortem record for the call.
(`hcons` is the registry invariant that every stored key is its agent's id,
which `register` maintains.) -/
theorem replace_agent_preserves_roster (generator : String → Personality)
    (memory_window : Nat) (registry : Registry)
    (post_mortems : List PostMortemRecord) (aid : String)
    (rounds_survived : Nat) (total_votes_received : Int)
    (elimination_round : Nat) (was_tie : Bool)
    (hnodup : (registry.map Prod.fst).Nodup)
    (hcons : ∀ p ∈ registry, (Prod.snd p).agent_id = p.1)
    (hmem : aid ∈ registry.map Prod.fst) :
    ∃ (registry2 : Registry) (old_agent : Agent),
      registryGet registry aid = some old_agent
      ∧ replace_agent generator memory_window registry post_mortems aid
          rounds_survived total_votes_received elimination_round was_tie
        = .ok (registry2,
            post_mortems ++ [PostMortemRecord.mk aid old_agent.personality
              rounds_survived total_votes_received elimination_round was_tie],
            Agent.mk aid (generator aid) memory_window [])
      ∧ registry2.length = registry.length
      ∧ registryGet registry2 aid
        = some (Agent.mk aid (generator aid) memory_window []) := by
  have hsome : (registry.find? (fun p => p.1 = aid)).isSome := by
    rw [List.find?_isSome]
    rcases List.mem_map.mp hmem with ⟨p, hp, hpk⟩
    exact ⟨p, hp, by simp [hpk]⟩
  obtain ⟨p, hfind⟩ := Option.isSome_iff_exists.mp hsome
  have hp_mem := List.mem_of_find?_eq_some hfind
  have hp_key : p.1 = aid := by simpa using List.find?_some hfind
  have hold_id : p.2.agent_id = aid := (hcons p hp_mem).trans hp_key
  have hget : registryGet registry aid = some p.2 := by simp [registryGet, hfind]
  have hrem : registryRemove registry aid
      = .ok (registry.filter (fun q => q.1 ≠ aid)) := by
    simp [registryRemove, hmem]
  have hnotin : aid ∉ (registry.filter (fun q => q.1 ≠ aid)).map Prod.fst := by
    intro hmem2
    rcases List.mem_map.mp hmem2 with ⟨q, hq, hqk⟩
    have hTrue := (List.mem_filter.mp hq).2
    simp at hTrue
    exact hTrue hqk
  have hreg : registryRegister (registry.filter (fun q => q.1 ≠ aid))
      (Agent.mk aid (generator aid) memory_window [])
      = .ok (registry.filter (fun q => q.1 ≠ aid)
          ++ [(aid, Agent.mk aid (generator aid) memory_window [])]) := by
    unfold registryRegister
    rw [if_neg hnotin]
  refine ⟨registry.filter (fun q => q.1 ≠ aid)
      ++ [(aid, Agent.mk aid (generator aid) memory_window [])], p.2, hget,
      ?_, ?_, ?_⟩
  · simp only [replace_agent, hget, hrem, hreg, hold_id]
  · rw [List.length_append]
    have := length_filter_ne_of_nodup registry aid hnodup hmem
    simpa using this
  · exact registryGet_append_new _ (Agent.mk aid (generator aid) memory_window []) hnotin

/-- C9 witness: replacing "A" in a 2-member roster keeps the count at 2,
re-registers "A" with the generated personality and empty history, and
appends its post-mortem record once. -/
theorem replace_agent_preserves_roster_witness :
    ∃ (registry2 : Registry) (old_agent : Agent),
      registryGet [("A", Agent.mk "A" (Personality.mk 0) 5 []),
          ("B", Agent.mk "B" (Personality.mk 1) 5 [])] "A" = some old_agent
      ∧ replace_agent (fun _ => Personality.mk 7) 5
          [("A", Agent.mk "A" (Personality.mk 0) 5 []),
           ("B", Agent.mk "B" (Personality.mk 1) 5 [])] [] "A" 3 4 3 false
        = .ok (registry2,
            [] ++ [PostMortemRecord.mk "A" old_agent.personality 3 4 3 false],
            Agent.mk "A" (Personality.mk 7) 5 [])
      ∧ registry2.length
        = ([("A", Agent.mk "A" (Personality.mk 0) 5 []),
            ("B", Agent.mk "B" (Personality.mk 1) 5 [])] : Registry).length
      ∧ registryGet registry2 "A" = some (Agent.mk "A" (Personality.mk 7) 5 []) :=
  replace_agent_preserves_roster (fun _ => Personality.mk 7) 5
    [("A", Agent.mk "A" (Personality.mk 0) 5 []),
     ("B", Agent.mk "B" (Personality.mk 1) 5 [])] [] "A" 3 4 3 false
    (by decide) (by decide) (by decide)

end AIHG
